import Mathlib

/-!
Verification of `training_utils.py` (stable-diffusion training utilities).

This file shallowly embeds the parts of the source that the claims refer to:

* the resolution-bucket planner `calculate_resolution_array` (lines 96-136),
  with numpy `arange`, the inverse-proportional height clamp, the square chop
  and the mirrored concatenation modelled on `List Nat`
  (`int(max_res_area ** (1/2))` becomes `Nat.sqrt`; the float expression
  `(max_res_area / w) // rounding * rounding` computes the exact rational
  floor for integer inputs in range, i.e. Nat division);
* the `TrainingConfig` dataclass (lines 57-93), with float fields as `Rat`;
* the token-window stitching of `train_step.compute_loss` with
  `strip_bos_eos_token=True` (lines 446-471), on lists of token windows,
  and the reshape with hardcoded window length 77 (line 449);
* the prediction-target selection and its fatal `ValueError`
  (lines 490-505), as an `Except`-valued selector threaded through a model
  of the parameter update;
* the compilation-cache construction of `dp_compile_all_unique_resolution`
  (lines 546-726): constraint pairing by `zip`, per-constraint bucket
  planning with `rounding=64`, the shape key
  `(batch_size, 3, width, height)` of the dummy batch, and dictionary
  insertion (modelled sequentially in bucket order, each compiled
  executable abstracted by its bucket index);
* the `FrozenModel.create` classmethod (lines 49-54), whose body references
  the unbound name `call`, modelled through Python name resolution over the
  method locals, the module globals and the builtins namespace;
* the Lion optimizer-state construction (lines 243-342), recording the
  effective hyperparameters.
-/

namespace TrainingUtils

def arange (start stop step : Nat) : List Nat :=
  (List.range ((stop - start + step - 1) / step)).map (fun j => start + j * step)

def bucket_height (max_res_area rounding w : Nat) : Nat :=
  max_res_area / w / rounding * rounding

def calculate_resolution_array (max_res_area bucket_lower_bound_res rounding : Nat) :
    List (Nat × Nat) :=
  let centroid := Nat.sqrt max_res_area
  let w := arange (bucket_lower_bound_res / rounding * rounding)
      (centroid / rounding * rounding + rounding) rounding
  let h := w.map (bucket_height max_res_area rounding)
  if w.getLastD 0 = h.getLastD 0 then
    (w ++ h.dropLast.reverse).zip (h ++ w.dropLast.reverse)
  else
    (w ++ h.reverse).zip (h ++ w.reverse)

def planner_width (m r j : Nat) : Nat := (m / r + j) * r

def planner_height (A m r j : Nat) : Nat := bucket_height A r (planner_width m r j)

def planner_count (A m r : Nat) : Nat := Nat.sqrt A / r - m / r + 1

def mirror_count (A m r : Nat) : Nat :=
  if planner_width m r (planner_count A m r - 1) = planner_height A m r (planner_count A m r - 1)
  then planner_count A m r - 1 else planner_count A m r

def first_half (A m r : Nat) : List (Nat × Nat) :=
  (List.range (planner_count A m r)).map
    (fun j => (planner_width m r j, planner_height A m r j))

def second_half (A m r : Nat) : List (Nat × Nat) :=
  ((List.range (mirror_count A m r)).map
    (fun j => (planner_height A m r j, planner_width m r j))).reverse

def stripBosEos {α : Type} (ws : List (List α)) : List α :=
  (ws.headD []).dropLast ++
    (((ws.drop 1).dropLast).map (fun w => (w.drop 1).dropLast)).flatten ++
    ((ws.getLastD []).drop 1)

structure TrainingConfig where
  model_path : String
  batch_size : Nat
  learning_rate : Rat
  unet_learning_rate : Rat
  text_encoder_learning_rate : Rat
  lr_scheduler : String
  adam_to_lion_scale_factor : Rat
  compilation_cache_path : String
  keep_compiled_fn_in_cache : Bool
  text_encoder_context_window : Nat
  context_window_concatenation_count : Nat
  aot_compile : Bool
  image_area_root : List Nat
  minimum_axis_length : List Nat

/-- A concrete configuration matching the documented json example shape. -/
def cfg_base : TrainingConfig :=
  { model_path := "model_checkpoints/path"
    batch_size := 8
    learning_rate := 1/1000000
    unet_learning_rate := 1/1000000
    text_encoder_learning_rate := 1/1000000
    lr_scheduler := "constant"
    adam_to_lion_scale_factor := 7
    compilation_cache_path := "jax_cache"
    keep_compiled_fn_in_cache := true
    text_encoder_context_window := 77
    context_window_concatenation_count := 3
    aot_compile := true
    image_area_root := [64]
    minimum_axis_length := [64] }

/-- Same configuration with a duplicated resolution constraint. -/
def cfg_dup : TrainingConfig :=
  { cfg_base with image_area_root := [64, 64], minimum_axis_length := [64, 64] }

/-- Same configuration with mismatched constraint-list lengths. -/
def cfg_mis : TrainingConfig :=
  { cfg_base with image_area_root := [64, 128], minimum_axis_length := [64] }

def reshape_hidden_states {α : Type} (training_config : TrainingConfig) (tokens : List α) :
    Option (List (List α)) :=
  if tokens.length % 77 = 0 then
    some ((List.range (tokens.length / 77)).map (fun i => (tokens.drop (i * 77)).take 77))
  else none

def prediction_target {α β γ : Type} (prediction_type : String) (noise : α)
    (get_velocity : β → α → γ → α) (latents : β) (timesteps : γ) : Except String α :=
  if prediction_type = "epsilon" then Except.ok noise
  else if prediction_type = "v_prediction" then
    Except.ok (get_velocity latents noise timesteps)
  else Except.error ("Unknown prediction type " ++ prediction_type)

def train_step_param_update {σ α β γ : Type} (prediction_type : String) (noise : α)
    (get_velocity : β → α → γ → α) (latents : β) (timesteps : γ)
    (unet_state text_encoder_state : σ)
    (apply_gradients_unet apply_gradients_text : σ → σ) : Except String (σ × σ) :=
  match prediction_target prediction_type noise get_velocity latents timesteps with
  | Except.ok _target =>
      Except.ok (apply_gradients_unet unet_state, apply_gradients_text text_encoder_state)
  | Except.error e => Except.error e

def python_builtins : List String :=
  ["abs", "aiter", "all", "anext", "any", "ascii", "bin", "bool", "breakpoint",
   "bytearray", "bytes", "callable", "chr", "classmethod", "compile", "complex",
   "delattr", "dict", "dir", "divmod", "enumerate", "eval", "exec", "filter",
   "float", "format", "frozenset", "getattr", "globals", "hasattr", "hash",
   "help", "hex", "id", "input", "int", "isinstance", "issubclass", "iter",
   "len", "list", "locals", "map", "max", "memoryview", "min", "next", "object",
   "oct", "open", "ord", "pow", "print", "property", "range", "repr", "reversed",
   "round", "set", "setattr", "slice", "sorted", "staticmethod", "str", "sum",
   "super", "tuple", "type", "vars", "zip", "True", "False", "None",
   "NotImplemented", "Ellipsis", "Exception", "BaseException", "ValueError",
   "TypeError", "NameError", "AttributeError", "KeyError", "IndexError",
   "RuntimeError", "StopIteration", "OSError", "ImportError"]

def training_utils_module_globals : List String :=
  ["gc", "Thread", "jax", "jnp", "np", "dataclass", "FlaxAutoencoderKL",
   "FlaxStableDiffusionPipeline", "FlaxUNet2DConditionModel", "FlaxDDPMScheduler",
   "CLIPTokenizer", "FlaxCLIPTextModel", "train_state", "optax", "struct",
   "Callable", "Tuple", "Any", "cc", "TimingContextManager", "Mesh",
   "PartitionSpec", "NamedSharding", "mesh_utils", "devices", "mesh",
   "FrozenModel", "TrainingConfig", "calculate_resolution_array", "load_models",
   "create_frozen_states", "create_lion_optimizer_states",
   "on_device_model_training_state", "train_step",
   "dp_compile_all_unique_resolution"]

def frozen_model_create_locals : List String := ["cls", "apply_fn", "params"]

def resolve_name_in_create (n : String) : Option String :=
  if frozen_model_create_locals.contains n then some n
  else if training_utils_module_globals.contains n then some n
  else if python_builtins.contains n then some n
  else none

structure FrozenModel (φ π : Type) where
  call : φ
  params : π

def FrozenModel.create {φ π : Type} (apply_fn : φ) (params : π) :
    Except String (FrozenModel String π) :=
  match resolve_name_in_create "call" with
  | some v => Except.ok { call := v, params := params }
  | none => Except.error "NameError: name call is not defined"

structure LoadedModels (φ π : Type) where
  vae_model : φ
  vae_params : π
  noise_scheduler_object : φ
  noise_scheduler_state : π

def create_frozen_states {φ π : Type} (models : LoadedModels φ π) :
    FrozenModel φ π × FrozenModel φ π :=
  ({ call := models.vae_model, params := models.vae_params },
   { call := models.noise_scheduler_object, params := models.noise_scheduler_state })

structure LionOptimizerSettings where
  learning_rate : Rat
  b1 : Rat
  b2 : Rat
  weight_decay : Rat
  clip_global_norm : Rat

structure TrainedModelStates where
  unet_state : Option LionOptimizerSettings
  text_encoder_state : Option LionOptimizerSettings

def create_lion_optimizer_states (train_unet train_text_encoder : Bool)
    (adam_to_lion_scale_factor u_net_learning_rate text_encoder_learning_rate : Rat) :
    TrainedModelStates :=
  { unet_state :=
      if train_unet then
        some { learning_rate := u_net_learning_rate / adam_to_lion_scale_factor
               b1 := 9/10
               b2 := 99/100
               weight_decay := 1/100 * adam_to_lion_scale_factor
               clip_global_norm := 1 }
      else none
    text_encoder_state :=
      if train_text_encoder then
        some { learning_rate := text_encoder_learning_rate / adam_to_lion_scale_factor
               b1 := 9/10
               b2 := 99/100
               weight_decay := 1/100 * adam_to_lion_scale_factor
               clip_global_norm := 1 }
      else none }

def default_adam_to_lion_scale_factor : Rat := 7

def default_u_net_learning_rate : Rat := 1/1000000

def default_text_encoder_learning_rate : Rat := 1/1000000

def on_device_model_training_state (training_config : TrainingConfig) :
    TrainedModelStates :=
  create_lion_optimizer_states true true 7
    default_u_net_learning_rate default_text_encoder_learning_rate

def resolution_constraints (training_config : TrainingConfig) : List (Nat × Nat) :=
  training_config.image_area_root.zip training_config.minimum_axis_length

def planned_buckets (training_config : TrainingConfig) : List (Nat × Nat) :=
  ((resolution_constraints training_config).map
    (fun c => calculate_resolution_array (c.1 ^ 2) c.2 64)).flatten

def train_step_shape_key (batch_size : Nat) (bucket : Nat × Nat) :
    Nat × Nat × Nat × Nat :=
  (batch_size, 3, bucket.1, bucket.2)

def cacheInsert {κ ν : Type} [DecidableEq κ] : List (κ × ν) → κ → ν → List (κ × ν)
  | [], k, v => [(k, v)]
  | e :: es, k, v => if e.1 = k then (k, v) :: es else e :: cacheInsert es k v

def cacheLookup {κ ν : Type} [DecidableEq κ] (m : List (κ × ν)) (k : κ) : Option ν :=
  (m.find? (fun e => decide (e.1 = k))).map Prod.snd

def buildCache {κ ν : Type} [DecidableEq κ] (entries : List (κ × ν)) : List (κ × ν) :=
  entries.foldl (fun m e => cacheInsert m e.1 e.2) []

def compile_entries (training_config : TrainingConfig) :
    List ((Nat × Nat × Nat × Nat) × Nat) :=
  (planned_buckets training_config).enum.map
    (fun e => (train_step_shape_key training_config.batch_size e.2, e.1))

def dp_compile_all_unique_resolution (training_config : TrainingConfig) :
    List ((Nat × Nat × Nat × Nat) × Nat) :=
  buildCache (compile_entries training_config)

lemma arange_step_eq (k0 K r : Nat) (hr : 0 < r) (hk : k0 ≤ K) :
    arange (k0 * r) (K * r + r) r = (List.range (K - k0 + 1)).map (fun j => (k0 + j) * r) := by
  unfold arange
  have h2 : k0 * r ≤ K * r := Nat.mul_le_mul_right r hk
  have h3 : (K - k0) * r = K * r - k0 * r := Nat.sub_mul K k0 r
  have h4 : (K - k0 + 1) * r = (K - k0) * r + r := Nat.succ_mul _ r
  have h1 : K * r + r - k0 * r + r - 1 = (K - k0 + 1) * r + (r - 1) := by omega
  rw [h1]
  have h5 : ((K - k0 + 1) * r + (r - 1)) / r = K - k0 + 1 := by
    rw [Nat.add_comm, Nat.add_mul_div_right _ _ hr, Nat.div_eq_of_lt (by omega)]
    omega
  rw [h5]
  simp [Nat.add_mul]

lemma calc_res_canon (A m r : Nat) (hr : 0 < r) (hmc : m ≤ Nat.sqrt A) :
    calculate_resolution_array A m r = first_half A m r ++ second_half A m r := by
  have hk0K : m / r ≤ Nat.sqrt A / r := Nat.div_le_div_right hmc
  have hw : arange (m / r * r) (Nat.sqrt A / r * r + r) r
      = (List.range (planner_count A m r)).map (planner_width m r) :=
    arange_step_eq (m / r) (Nat.sqrt A / r) r hr hk0K
  have hNn : planner_count A m r = (planner_count A m r - 1) + 1 := by
    simp [planner_count]
  set N := planner_count A m r with hN
  set n := N - 1 with hn
  simp only [calculate_resolution_array]
  rw [hw]
  rw [List.map_map]
  have hmapw : (List.range N).map (planner_width m r)
      = (List.range n).map (planner_width m r) ++ [planner_width m r n] := by
    conv_lhs => rw [hNn, List.range_succ, List.map_append]
    rfl
  have hmaph : (List.range N).map (bucket_height A r ∘ planner_width m r)
      = (List.range n).map (planner_height A m r) ++ [planner_height A m r n] := by
    conv_lhs => rw [hNn, List.range_succ, List.map_append]
    rfl
  have hlastw : ((List.range N).map (planner_width m r)).getLastD 0 = planner_width m r n := by
    rw [hmapw]; exact List.getLastD_concat ..
  have hlasth : ((List.range N).map (bucket_height A r ∘ planner_width m r)).getLastD 0
      = planner_height A m r n := by
    rw [hmaph]; exact List.getLastD_concat ..
  rw [hlastw, hlasth]
  have hdropw : ((List.range N).map (planner_width m r)).dropLast
      = (List.range n).map (planner_width m r) := by
    rw [hmapw]; exact List.dropLast_concat ..
  have hdroph : ((List.range N).map (bucket_height A r ∘ planner_width m r)).dropLast
      = (List.range n).map (planner_height A m r) := by
    rw [hmaph]; exact List.dropLast_concat ..
  have hzip1 : ((List.range N).map (planner_width m r)).zip
        ((List.range N).map (bucket_height A r ∘ planner_width m r))
      = first_half A m r := by
    rw [List.zip_map']; rfl
  split_ifs with hsq
  · -- square: chop last index before mirroring
    rw [hdropw, hdroph]
    rw [List.zip_append (by simp)]
    rw [hzip1]
    congr 1
    rw [← List.map_reverse, ← List.map_reverse, List.zip_map']
    rw [List.map_reverse]
    simp only [second_half, mirror_count, ← hN, ← hn, if_pos hsq]
  · rw [List.zip_append (by simp)]
    rw [hzip1]
    congr 1
    rw [← List.map_reverse, ← List.map_reverse, List.zip_map']
    rw [List.map_reverse]
    simp only [second_half, mirror_count, ← hN, ← hn, if_neg hsq]
    rfl

lemma mirror_le (A m r : Nat) : mirror_count A m r ≤ planner_count A m r := by
  unfold mirror_count; split_ifs <;> omega

lemma k_le_K {A m r j : Nat} (hj : j < planner_count A m r) (hk0K : m / r ≤ Nat.sqrt A / r) :
    m / r + j ≤ Nat.sqrt A / r := by
  simp [planner_count] at hj; omega

lemma pw_le_sqrt {A m r j : Nat} (hmc : m ≤ Nat.sqrt A) (hj : j < planner_count A m r) :
    planner_width m r j ≤ Nat.sqrt A :=
  le_trans (Nat.mul_le_mul_right r (k_le_K hj (Nat.div_le_div_right hmc)))
    (Nat.div_mul_le_self _ _)

lemma k_sq_le {A m r j : Nat} (hr : 0 < r) (hmc : m ≤ Nat.sqrt A)
    (hj : j < planner_count A m r) :
    (m / r + j) * (m / r + j) ≤ A / (r * r) := by
  have h1 : planner_width m r j * planner_width m r j ≤ A :=
    le_trans (Nat.mul_le_mul (pw_le_sqrt hmc hj) (pw_le_sqrt hmc hj)) (Nat.sqrt_le A)
  rw [Nat.le_div_iff_mul_le (by positivity)]
  calc (m / r + j) * (m / r + j) * (r * r)
      = ((m / r + j) * r) * ((m / r + j) * r) := by ring
    _ ≤ A := h1

lemma bh_mul (A r k : Nat) : bucket_height A r (k * r) = A / (r * r) / k * r := by
  unfold bucket_height
  rw [Nat.div_div_eq_div_mul, Nat.div_div_eq_div_mul]
  rw [show k * r * r = r * r * k by ring]

lemma ph_eq (A m r j : Nat) : planner_height A m r j = A / (r * r) / (m / r + j) * r :=
  bh_mul A r (m / r + j)

lemma div_div_self_eq {B k : Nat} (hk : 0 < k) (hsq : k * k ≤ B) : B / (B / k) = k := by
  have h1 : k * (B / k) ≤ B := Nat.mul_div_le B k
  have h2 : B % k < k := Nat.mod_lt _ hk
  have h3 : k * (B / k) + B % k = B := Nat.div_add_mod B k
  have h4 : k ≤ B / k := (Nat.le_div_iff_mul_le hk).mpr hsq
  have h5 : (k + 1) * (B / k) = k * (B / k) + B / k := by ring
  exact Nat.div_eq_of_lt_le h1 (by omega)

lemma one_le_k0 {m r : Nat} (hr : 0 < r) (hm : r ≤ m) : 1 ≤ m / r :=
  (Nat.one_le_div_iff hr).mpr hm

lemma pw_le_ph {A m r j : Nat} (hr : 0 < r) (hm : r ≤ m) (hmc : m ≤ Nat.sqrt A)
    (hj : j < planner_count A m r) : planner_width m r j ≤ planner_height A m r j := by
  rw [ph_eq]
  exact Nat.mul_le_mul_right r
    ((Nat.le_div_iff_mul_le (by have := one_le_k0 hr hm; omega)).mpr (k_sq_le hr hmc hj))

lemma pw_lt_ph {A m r j : Nat} (hr : 0 < r) (hm : r ≤ m) (hmc : m ≤ Nat.sqrt A)
    (hj : j + 1 < planner_count A m r) : planner_width m r j < planner_height A m r j := by
  rw [ph_eq]
  have hk : 0 < m / r + j := by have := one_le_k0 hr hm; omega
  have hsq1 : (m / r + (j + 1)) * (m / r + (j + 1)) ≤ A / (r * r) := k_sq_le hr hmc hj
  have h2 : (m / r + j + 1) * (m / r + j) ≤ A / (r * r) := by nlinarith
  have h3 : m / r + j + 1 ≤ A / (r * r) / (m / r + j) := (Nat.le_div_iff_mul_le hk).mpr h2
  calc planner_width m r j = (m / r + j) * r := rfl
    _ < (m / r + j + 1) * r := by
        have h6 : m / r + j < m / r + j + 1 := Nat.lt_succ_self _
        exact (Nat.mul_lt_mul_right hr).mpr h6
    _ ≤ A / (r * r) / (m / r + j) * r := Nat.mul_le_mul_right r h3

lemma pw_inj {m r i j : Nat} (hr : 0 < r) (h : planner_width m r i = planner_width m r j) :
    i = j := by
  unfold planner_width at h
  have := Nat.eq_of_mul_eq_mul_right hr h
  omega

lemma ph_inj {A m r i j : Nat} (hr : 0 < r) (hm : r ≤ m) (hmc : m ≤ Nat.sqrt A)
    (hi : i < planner_count A m r) (hj : j < planner_count A m r)
    (h : planner_height A m r i = planner_height A m r j) : i = j := by
  rw [ph_eq, ph_eq] at h
  have h2 : A / (r * r) / (m / r + i) = A / (r * r) / (m / r + j) :=
    Nat.eq_of_mul_eq_mul_right hr h
  have hki : 0 < m / r + i := by have := one_le_k0 hr hm; omega
  have hkj : 0 < m / r + j := by have := one_le_k0 hr hm; omega
  have h3 := div_div_self_eq hki (k_sq_le hr hmc hi)
  have h4 := div_div_self_eq hkj (k_sq_le hr hmc hj)
  rw [h2] at h3
  omega

lemma bh_ph {A m r j : Nat} (hr : 0 < r) (hm : r ≤ m) (hmc : m ≤ Nat.sqrt A)
    (hj : j < planner_count A m r) :
    bucket_height A r (planner_height A m r j) = planner_width m r j := by
  have hk : 0 < m / r + j := by have := one_le_k0 hr hm; omega
  rw [ph_eq, bh_mul, div_div_self_eq hk (k_sq_le hr hmc hj)]
  rfl

lemma pw_mod (m r j : Nat) : planner_width m r j % r = 0 := Nat.mul_mod_left _ _

lemma ph_mod (A m r j : Nat) : planner_height A m r j % r = 0 := by
  rw [ph_eq]; exact Nat.mul_mod_left _ _

lemma pw_mul_ph_le (A m r j : Nat) : planner_width m r j * planner_height A m r j ≤ A := by
  rw [ph_eq]
  calc planner_width m r j * (A / (r * r) / (m / r + j) * r)
      = ((m / r + j) * (A / (r * r) / (m / r + j))) * (r * r) := by
        unfold planner_width; ring
    _ ≤ (A / (r * r)) * (r * r) := Nat.mul_le_mul_right _ (Nat.mul_div_le _ _)
    _ ≤ A := Nat.div_mul_le_self _ _

lemma pw_lower (m r j : Nat) : m / r * r ≤ planner_width m r j :=
  Nat.mul_le_mul_right r (Nat.le_add_right _ _)

lemma mem_calc {A m r : Nat} {p : Nat × Nat} (hr : 0 < r) (hmc : m ≤ Nat.sqrt A)
    (hp : p ∈ calculate_resolution_array A m r) :
    (∃ j < planner_count A m r, p = (planner_width m r j, planner_height A m r j)) ∨
    (∃ j < mirror_count A m r, p = (planner_height A m r j, planner_width m r j)) := by
  rw [calc_res_canon A m r hr hmc] at hp
  rcases List.mem_append.mp hp with h | h
  · left
    simp only [first_half, List.mem_map, List.mem_range] at h
    obtain ⟨j, hj, hje⟩ := h
    exact ⟨j, hj, hje.symm⟩
  · right
    simp only [second_half, List.mem_reverse, List.mem_map, List.mem_range] at h
    obtain ⟨j, hj, hje⟩ := h
    exact ⟨j, hj, hje.symm⟩

lemma nodup_first_half (A m r : Nat) (hr : 0 < r) : (first_half A m r).Nodup := by
  apply List.Nodup.map_on ?_ (List.nodup_range _)
  intro i _ j _ hij
  exact pw_inj hr (congrArg Prod.fst hij)

lemma nodup_second_half (A m r : Nat) (hr : 0 < r) (hm : r ≤ m) (hmc : m ≤ Nat.sqrt A) :
    (second_half A m r).Nodup := by
  rw [second_half, List.nodup_reverse]
  apply List.Nodup.map_on ?_ (List.nodup_range _)
  intro i hi j hj hij
  exact ph_inj hr hm hmc (lt_of_lt_of_le (List.mem_range.mp hi) (mirror_le A m r))
    (lt_of_lt_of_le (List.mem_range.mp hj) (mirror_le A m r)) (congrArg Prod.fst hij)

lemma mem_first_half {A m r : Nat} {q : Nat × Nat} :
    q ∈ first_half A m r ↔
      ∃ j < planner_count A m r, q = (planner_width m r j, planner_height A m r j) := by
  simp only [first_half, List.mem_map, List.mem_range]
  constructor
  · rintro ⟨j, hj, rfl⟩; exact ⟨j, hj, rfl⟩
  · rintro ⟨j, hj, rfl⟩; exact ⟨j, hj, rfl⟩

lemma mem_second_half {A m r : Nat} {q : Nat × Nat} :
    q ∈ second_half A m r ↔
      ∃ j < mirror_count A m r, q = (planner_height A m r j, planner_width m r j) := by
  simp only [second_half, List.mem_reverse, List.mem_map, List.mem_range]
  constructor
  · rintro ⟨j, hj, rfl⟩; exact ⟨j, hj, rfl⟩
  · rintro ⟨j, hj, rfl⟩; exact ⟨j, hj, rfl⟩

lemma mirror_count_pos {A m r : Nat}
    (h : planner_width m r (planner_count A m r - 1)
       = planner_height A m r (planner_count A m r - 1)) :
    mirror_count A m r = planner_count A m r - 1 := by
  unfold mirror_count; rw [if_pos h]

lemma mirror_count_neg {A m r : Nat}
    (h : ¬ (planner_width m r (planner_count A m r - 1)
       = planner_height A m r (planner_count A m r - 1))) :
    mirror_count A m r = planner_count A m r := by
  unfold mirror_count; rw [if_neg h]

theorem count_one_of_mem_nodup {α : Type} [BEq α] [LawfulBEq α] {l : List α} {a : α}
    (d : l.Nodup) (h : a ∈ l) : l.count a = 1 := by
  induction l with
  | nil => cases h
  | cons b t ih =>
    rw [List.count_cons]
    by_cases heq : a = b
    · subst heq
      have hb : a ∉ t := (List.nodup_cons.mp d).1
      rw [if_pos (by simp), List.count_eq_zero.mpr hb]
    · have hmem : a ∈ t := by
        rcases List.mem_cons.mp h with h1 | h1
        · exact absurd h1 heq
        · exact h1
      have hne : (b == a) = false := by
        simp only [beq_eq_false_iff_ne, ne_eq]
        exact fun hba => heq hba.symm
      rw [if_neg (by simp [hne]), ih (List.nodup_cons.mp d).2 hmem]

/-- Claim C5 (confirmed): the bucket list returned by `calculate_resolution_array`
is symmetric under swap: for every non-square bucket `(w, h)` it contains, it also
contains `(h, w)` exactly once, and a square bucket, when present, appears exactly
once. -/
theorem bucket_list_symmetric (A m r : Nat) (hr : 0 < r) (hm : r ≤ m) (hmc : m ≤ Nat.sqrt A)
    (p : Nat × Nat) (hp : p ∈ calculate_resolution_array A m r) :
    (p.1 ≠ p.2 → (calculate_resolution_array A m r).count (p.2, p.1) = 1) ∧
    (p.1 = p.2 → (calculate_resolution_array A m r).count p = 1) := by
  have hcanon := calc_res_canon A m r hr hmc
  have hnf := nodup_first_half A m r hr
  have hns := nodup_second_half A m r hr hm hmc
  have hNpos : 1 ≤ planner_count A m r := by simp [planner_count]
  constructor
  · intro hne
    rcases mem_calc hr hmc hp with ⟨j, hj, hpe⟩ | ⟨j, hj, hpe⟩
    · -- p is a landscape bucket (pw j, ph j)
      subst hpe
      dsimp only at hne ⊢
      simp only [ne_eq] at hne
      have hlt : planner_width m r j < planner_height A m r j :=
        lt_of_le_of_ne (pw_le_ph hr hm hmc hj) (by simpa using hne)
      rw [hcanon, List.count_append]
      have c1 : (first_half A m r).count (planner_height A m r j, planner_width m r j) = 0 := by
        apply List.count_eq_zero.mpr
        intro hmem
        obtain ⟨i, hi, he⟩ := mem_first_half.mp hmem
        have h1 : planner_height A m r j = planner_width m r i := congrArg Prod.fst he
        have h2 : planner_width m r j = planner_height A m r i := congrArg Prod.snd he
        have h3 : planner_width m r i ≤ planner_height A m r i := pw_le_ph hr hm hmc hi
        omega
      have hj' : j < mirror_count A m r := by
        by_cases hsq : planner_width m r (planner_count A m r - 1)
            = planner_height A m r (planner_count A m r - 1)
        · rw [mirror_count_pos hsq]
          rcases Nat.lt_or_ge j (planner_count A m r - 1) with h | h
          · exact h
          · exfalso
            have : j = planner_count A m r - 1 := by omega
            subst this
            omega
        · rw [mirror_count_neg hsq]; exact hj
      have c2 : (second_half A m r).count (planner_height A m r j, planner_width m r j) = 1 :=
        count_one_of_mem_nodup hns (mem_second_half.mpr ⟨j, hj', rfl⟩)
      omega
    · -- p is a portrait bucket (ph j, pw j)
      subst hpe
      dsimp only at hne ⊢
      simp only [ne_eq] at hne
      have hj' : j < planner_count A m r := lt_of_lt_of_le hj (mirror_le A m r)
      have hlt : planner_width m r j < planner_height A m r j :=
        lt_of_le_of_ne (pw_le_ph hr hm hmc hj') (by intro h; exact hne (by rw [h]))
      rw [hcanon, List.count_append]
      have c1 : (first_half A m r).count (planner_width m r j, planner_height A m r j) = 1 :=
        count_one_of_mem_nodup hnf (mem_first_half.mpr ⟨j, hj', rfl⟩)
      have c2 : (second_half A m r).count (planner_width m r j, planner_height A m r j) = 0 := by
        apply List.count_eq_zero.mpr
        intro hmem
        obtain ⟨i, hi, he⟩ := mem_second_half.mp hmem
        have h1 : planner_width m r j = planner_height A m r i := congrArg Prod.fst he
        have h2 : planner_height A m r j = planner_width m r i := congrArg Prod.snd he
        have h3 : planner_width m r i ≤ planner_height A m r i :=
          pw_le_ph hr hm hmc (lt_of_lt_of_le hi (mirror_le A m r))
        omega
      omega
  · intro hsq
    rcases mem_calc hr hmc hp with ⟨j, hj, hpe⟩ | ⟨j, hj, hpe⟩
    · subst hpe
      dsimp only at hsq ⊢
      have hsq' : planner_width m r j = planner_height A m r j := hsq
      have hjn : j = planner_count A m r - 1 := by
        by_contra hne
        have hj1 : j + 1 < planner_count A m r := by omega
        have := pw_lt_ph hr hm hmc hj1
        omega
      subst hjn
      rw [hcanon, List.count_append]
      have c1 : (first_half A m r).count
          (planner_width m r (planner_count A m r - 1),
           planner_height A m r (planner_count A m r - 1)) = 1 :=
        count_one_of_mem_nodup hnf (mem_first_half.mpr ⟨planner_count A m r - 1, by omega, rfl⟩)
      have c2 : (second_half A m r).count
          (planner_width m r (planner_count A m r - 1),
           planner_height A m r (planner_count A m r - 1)) = 0 := by
        apply List.count_eq_zero.mpr
        intro hmem
        obtain ⟨i, hi, he⟩ := mem_second_half.mp hmem
        rw [mirror_count_pos hsq'] at hi
        have h2 : planner_height A m r (planner_count A m r - 1) = planner_width m r i :=
          congrArg Prod.snd he
        have h3 : i = planner_count A m r - 1 := pw_inj hr (h2.symm.trans hsq'.symm)
        omega
      omega
    · subst hpe
      dsimp only at hsq
      exfalso
      have hj' : j < planner_count A m r := lt_of_lt_of_le hj (mirror_le A m r)
      have hsq' : planner_height A m r j = planner_width m r j := hsq
      have hjn : j = planner_count A m r - 1 := by
        by_contra hne
        have hj1 : j + 1 < planner_count A m r := by omega
        have := pw_lt_ph hr hm hmc hj1
        omega
      subst hjn
      have := mirror_count_pos hsq'.symm
      omega

/-- Claim C1 (amended): for valid inputs with `rounding <= min_minor_axis`, every
emitted bucket `(w, h)` satisfies `w % rounding = 0`, `h % rounding = 0`,
`w * h <= max_area`, and `min(w, h) >= (min_minor_axis / rounding) * rounding`
(the minor-axis bound only holds after rounding the bound itself down to a multiple
of `rounding`; the claim as stated, with bound `min_minor_axis`, is refuted by
`bucket_min_axis_counterexample`). -/
theorem bucket_invariants (A m r : Nat) (hr : 0 < r) (hm : r ≤ m) (hmc : m ≤ Nat.sqrt A)
    (p : Nat × Nat) (hp : p ∈ calculate_resolution_array A m r) :
    p.1 % r = 0 ∧ p.2 % r = 0 ∧ p.1 * p.2 ≤ A ∧ m / r * r ≤ min p.1 p.2 := by
  rcases mem_calc hr hmc hp with ⟨j, hj, hpe⟩ | ⟨j, hj, hpe⟩
  · subst hpe
    refine ⟨pw_mod m r j, ph_mod A m r j, pw_mul_ph_le A m r j, ?_⟩
    rw [min_eq_left (pw_le_ph hr hm hmc hj)]
    exact pw_lower m r j
  · subst hpe
    have hj' : j < planner_count A m r := lt_of_lt_of_le hj (mirror_le A m r)
    refine ⟨ph_mod A m r j, pw_mod m r j, ?_, ?_⟩
    · dsimp only
      rw [Nat.mul_comm]
      exact pw_mul_ph_le A m r j
    · dsimp only
      rw [min_eq_right (pw_le_ph hr hm hmc hj')]
      exact pw_lower m r j

lemma sqrt_sixteen : Nat.sqrt 16 = 4 := by
  symm; rw [Nat.eq_sqrt]; omega

lemma mem_two_eight : (2, 8) ∈ calculate_resolution_array 16 3 2 := by
  simp only [calculate_resolution_array, sqrt_sixteen]
  decide

/-- Claim C1 counterexample: at the valid input `max_area = 16`,
`min_minor_axis = 3`, `rounding = 2` (so `rounding > 0` and
`min_minor_axis <= floor(sqrt(max_area)) = 4`), the emitted bucket `(2, 8)` has
`min(2, 8) = 2 < 3 = min_minor_axis`, refuting the claimed bound. -/
theorem bucket_min_axis_counterexample :
    0 < 2 ∧ 3 ≤ Nat.sqrt 16 ∧ (2, 8) ∈ calculate_resolution_array 16 3 2 ∧
    ¬ (3 ≤ min 2 8) := by
  refine ⟨by norm_num, by rw [sqrt_sixteen]; norm_num, mem_two_eight, by norm_num⟩

/-- Claim C1 witness: the amended theorem evaluated at
`(max_area, min_minor_axis, rounding) = (16, 3, 2)` and bucket `(2, 8)`. -/
theorem bucket_invariants_witness :
    2 % 2 = 0 ∧ 8 % 2 = 0 ∧ 2 * 8 ≤ 16 ∧ 3 / 2 * 2 ≤ min 2 8 := by
  have h := bucket_invariants 16 3 2 (by norm_num) (by norm_num)
    (by rw [sqrt_sixteen]; norm_num) (2, 8) mem_two_eight
  exact h

/-- Claim C4 (confirmed): every bucket `(w, h)` in the sequence returned by
`calculate_resolution_array`, including the mirrored portrait half, satisfies
`h = floor((max_area / w) / rounding) * rounding` (in Nat arithmetic
`A / w / r * r`). -/
theorem bucket_height_formula (A m r : Nat) (hr : 0 < r) (hm : r ≤ m) (hmc : m ≤ Nat.sqrt A)
    (p : Nat × Nat) (hp : p ∈ calculate_resolution_array A m r) :
    p.2 = A / p.1 / r * r := by
  rcases mem_calc hr hmc hp with ⟨j, hj, hpe⟩ | ⟨j, hj, hpe⟩
  · subst hpe; rfl
  · subst hpe
    have hj' : j < planner_count A m r := lt_of_lt_of_le hj (mirror_le A m r)
    exact (bh_ph hr hm hmc hj').symm

/-- Claim C4 witness: the theorem evaluated at `(16, 3, 2)` and bucket `(2, 8)`. -/
theorem bucket_height_formula_witness : (8 : Nat) = 16 / 2 / 2 * 2 := by
  have h := bucket_height_formula 16 3 2 (by norm_num) (by norm_num)
    (by rw [sqrt_sixteen]; norm_num) (2, 8) mem_two_eight
  exact h

/-- Claim C5 witness: at `(16, 3, 2)` the mirror `(8, 2)` of the non-square bucket
`(2, 8)` occurs exactly once. -/
theorem bucket_list_symmetric_witness :
    (calculate_resolution_array 16 3 2).count (8, 2) = 1 := by
  have h := bucket_list_symmetric 16 3 2 (by norm_num) (by norm_num)
    (by rw [sqrt_sixteen]; norm_num) (2, 8) mem_two_eight
  exact h.1 (by norm_num)

lemma length_flatten_const {α : Type} (c : Nat) :
    ∀ (l : List (List α)), (∀ w ∈ l, w.length = c) → l.flatten.length = l.length * c := by
  intro l
  induction l with
  | nil => intro _; simp
  | cons a t ih =>
    intro h
    have ha : a.length = c := h a (List.mem_cons_self a t)
    have ht := ih (fun w hw => h w (List.mem_cons_of_mem a hw))
    simp only [List.flatten_cons, List.length_append, List.length_cons, ha, ht]
    ring

/-- Helper: the default-last of a nonempty list is a member. -/
lemma getLastD_mem_of_ne_nil {α : Type} :
    ∀ (l : List α) (d : α), l ≠ [] → l.getLastD d ∈ l := by
  intro l
  induction l with
  | nil => intro d h; exact absurd rfl h
  | cons a t ih =>
    intro d _
    match t with
    | [] => simp
    | b :: t2 =>
      rw [List.getLastD_cons]
      exact List.mem_cons_of_mem a (ih a (by simp))

lemma stripBosEos_length_eq {α : Type} (ws : List (List α)) (L : Nat)
    (hL : ∀ w ∈ ws, w.length = L) :
    (2 ≤ ws.length →
      (stripBosEos ws).length = (L - 1) + (ws.length - 2) * (L - 2) + (L - 1)) ∧
    (ws.length = 1 → (stripBosEos ws).length = 2 * (L - 1)) := by
  match ws with
  | [] => exact ⟨fun h => by simp at h, fun h => by simp at h⟩
  | [a] =>
    have ha : a.length = L := hL a (by simp)
    refine ⟨fun h => by simp at h, fun _ => ?_⟩
    have he : stripBosEos [a] = a.dropLast ++ ([] : List α) ++ a.drop 1 := rfl
    rw [he, List.length_append, List.length_append, List.length_dropLast,
      List.length_drop, ha]
    simp only [List.length_nil]
    omega
  | a :: b :: t =>
    have ha : a.length = L := hL a (by simp)
    have hlast : ((a :: b :: t).getLastD []).length = L :=
      hL _ (getLastD_mem_of_ne_nil _ _ (by simp))
    refine ⟨fun _ => ?_, fun h => by simp at h⟩
    have he : stripBosEos (a :: b :: t)
        = a.dropLast ++ (((b :: t).dropLast).map (fun w => (w.drop 1).dropLast)).flatten
          ++ ((a :: b :: t).getLastD []).drop 1 := rfl
    have hmid : (((b :: t).dropLast).map (fun w => (w.drop 1).dropLast)).flatten.length
        = t.length * (L - 2) := by
      rw [length_flatten_const (L - 2)]
      · simp [List.length_dropLast]
      · intro x hx
        obtain ⟨w, hw, rfl⟩ := List.mem_map.mp hx
        have hwmem : w ∈ a :: b :: t :=
          List.mem_cons_of_mem a ((List.dropLast_sublist (b :: t)).subset hw)
        rw [List.length_dropLast, List.length_drop, hL w hwmem]
        omega
    rw [he, List.length_append, List.length_append, List.length_dropLast,
      List.length_drop, ha, hlast, hmid]
    have hws : (a :: b :: t).length - 2 = t.length := by simp
    rw [hws]

/-- Claim C2 (amended): for window count `k = ws.length` and window length `L`,
the stitched sequence with stripping enabled has length
`(L-1) + (k-2)*(L-2) + (L-1)` when `k >= 2`; but when `k = 1` its length is
`2*(L-1)`, not `L-2`: the single window is emitted twice, once without its last
token and once without its first token (the claimed `k = 1` behaviour is refuted
by `stitch_single_window_counterexample`). -/
theorem stitch_length_law {α : Type} (ws : List (List α)) (L : Nat)
    (hL : ∀ w ∈ ws, w.length = L) :
    (2 ≤ ws.length →
      (stripBosEos ws).length = (L - 1) + (ws.length - 2) * (L - 2) + (L - 1)) ∧
    (ws.length = 1 → (stripBosEos ws).length = 2 * (L - 1)) :=
  stripBosEos_length_eq ws L hL

/-- Claim C2 counterexample: a single window `[0, 1, 2]` (`k = 1`, `L = 3`)
stitches to `[0, 1, 1, 2]` of length `4`, not to length `L - 2 = 1`; the window
is not merely stripped of its first and last token. -/
theorem stitch_single_window_counterexample :
    ([[0, 1, 2]] : List (List Nat)).length = 1 ∧
    (∀ w ∈ ([[0, 1, 2]] : List (List Nat)), w.length = 3) ∧
    stripBosEos ([[0, 1, 2]] : List (List Nat)) = [0, 1, 1, 2] ∧
    (stripBosEos ([[0, 1, 2]] : List (List Nat))).length ≠ 3 - 2 := by
  refine ⟨rfl, by decide, rfl, by decide⟩

/-- Claim C2 witness: the amended length law evaluated at `k = 3, L = 3` and at
`k = 1, L = 3`. -/
theorem stitch_length_law_witness :
    (stripBosEos ([[0, 1, 2], [3, 4, 5], [6, 7, 8]] : List (List Nat))).length
      = (3 - 1) + (3 - 2) * (3 - 2) + (3 - 1) ∧
    (stripBosEos ([[9, 8, 7]] : List (List Nat))).length = 2 * (3 - 1) := by
  have h1 := stitch_length_law ([[0, 1, 2], [3, 4, 5], [6, 7, 8]] : List (List Nat)) 3 (by decide)
  have h2 := stitch_length_law ([[9, 8, 7]] : List (List Nat)) 3 (by decide)
  exact ⟨by simpa using h1.1 (by decide), by simpa using h2.2 rfl⟩

/-- Claim C8 (confirmed): the reshape of encoder hidden states into windows uses
the fixed constant 77 and is independent of the configured
`text_encoder_context_window`; it succeeds exactly when the per-example token
count is a multiple of 77, and the stitching length law holds with `L` fixed
at 77. -/
theorem reshape_window_length_is_77 {α : Type}
    (cfg1 cfg2 : TrainingConfig) (tokens : List α) :
    (reshape_hidden_states cfg1 tokens = reshape_hidden_states cfg2 tokens) ∧
    ((reshape_hidden_states cfg1 tokens).isSome ↔ tokens.length % 77 = 0) ∧
    (∀ ws, reshape_hidden_states cfg1 tokens = some ws →
      ws.length = tokens.length / 77 ∧ (∀ w ∈ ws, w.length = 77) ∧
      (2 ≤ ws.length → (stripBosEos ws).length = 76 + (ws.length - 2) * 75 + 76)) := by
  refine ⟨rfl, ?_, ?_⟩
  · unfold reshape_hidden_states
    split_ifs with h
    · simpa using h
    · simpa using h
  · intro ws hws
    unfold reshape_hidden_states at hws
    split_ifs at hws with hmod
    · obtain rfl := Option.some.inj hws
      have hlen : ((List.range (tokens.length / 77)).map
          (fun i => (tokens.drop (i * 77)).take 77)).length = tokens.length / 77 := by
        simp
      have hwin : ∀ w ∈ (List.range (tokens.length / 77)).map
          (fun i => (tokens.drop (i * 77)).take 77), w.length = 77 := by
        intro w hw
        obtain ⟨i, hi, rfl⟩ := List.mem_map.mp hw
        have hi' : i < tokens.length / 77 := List.mem_range.mp hi
        have hdiv : 77 * (tokens.length / 77) = tokens.length :=
          Nat.mul_div_cancel' (Nat.dvd_of_mod_eq_zero hmod)
        have hbound : i * 77 + 77 ≤ tokens.length := by
          have h1 : i + 1 ≤ tokens.length / 77 := hi'
          have h2 : (i + 1) * 77 ≤ tokens.length / 77 * 77 :=
            Nat.mul_le_mul_right 77 h1
          have h3 : (i + 1) * 77 = i * 77 + 77 := by ring
          omega
        rw [List.length_take, List.length_drop]
        omega
      refine ⟨hlen, hwin, ?_⟩
      intro hk
      have h := (stripBosEos_length_eq _ 77 hwin).1 hk
      rw [h]

/-- Claim C8 witness: 154 tokens reshape into two windows of 77 and stitch to
`76 + 0 * 75 + 76 = 152`. -/
theorem reshape_window_length_is_77_witness :
    (154 : Nat) % 77 = 0 ∧
    (stripBosEos ((List.range (154 / 77)).map
      (fun i => ((List.range 154).drop (i * 77)).take 77))).length
      = 76 + (154 / 77 - 2) * 75 + 76 := by
  have h := (reshape_window_length_is_77 cfg_base cfg_base (List.range 154)).2.2
    ((List.range (154 / 77)).map (fun i => ((List.range 154).drop (i * 77)).take 77))
    (by simp [reshape_hidden_states])
  refine ⟨rfl, ?_⟩
  have h2 := h.2.2 (by rw [h.1]; simp)
  rw [h.1] at h2
  simpa using h2

/-- Claim C3 (confirmed): with `prediction_type = "epsilon"` the regression target
is exactly the injected noise; with `"v_prediction"` it is the scheduler velocity
transform of `(latents, noise, timesteps)`; any other string raises the fatal
`ValueError` before gradients, so no updated states are produced. -/
theorem prediction_target_selection {σ α β γ : Type} (prediction_type : String) (noise : α)
    (get_velocity : β → α → γ → α) (latents : β) (timesteps : γ)
    (unet_state text_encoder_state : σ)
    (apply_gradients_unet apply_gradients_text : σ → σ) :
    (prediction_type = "epsilon" →
      prediction_target prediction_type noise get_velocity latents timesteps
        = Except.ok noise) ∧
    (prediction_type = "v_prediction" →
      prediction_target prediction_type noise get_velocity latents timesteps
        = Except.ok (get_velocity latents noise timesteps)) ∧
    (prediction_type ≠ "epsilon" → prediction_type ≠ "v_prediction" →
      train_step_param_update prediction_type noise get_velocity latents timesteps
          unet_state text_encoder_state apply_gradients_unet apply_gradients_text
        = Except.error ("Unknown prediction type " ++ prediction_type)) := by
  refine ⟨?_, ?_, ?_⟩
  · intro h; subst h; rfl
  · intro h; subst h; rfl
  · intro h1 h2
    unfold train_step_param_update prediction_target
    rw [if_neg h1, if_neg h2]

/-- Claim C3 witness: the three branches evaluated at concrete values, including
the fatal error for the unknown type `"sample"`. -/
theorem prediction_target_selection_witness :
    prediction_target "epsilon" (5 : Nat) (fun (l : Nat) (n : Nat) (t : Nat) => l + n + t) 1 2
      = Except.ok 5 ∧
    prediction_target "v_prediction" (5 : Nat) (fun l n t => l + n + t) 1 2
      = Except.ok 8 ∧
    train_step_param_update "sample" (5 : Nat) (fun l n t => l + n + t) 1 2
        (10 : Nat) (20 : Nat) id id
      = Except.error "Unknown prediction type sample" := by
  refine ⟨?_, ?_, ?_⟩
  · exact (prediction_target_selection "epsilon" (5 : Nat)
      (fun (l : Nat) (n : Nat) (t : Nat) => l + n + t) 1 2 (10 : Nat) (20 : Nat) id id).1 rfl
  · exact (prediction_target_selection "v_prediction" (5 : Nat)
      (fun (l : Nat) (n : Nat) (t : Nat) => l + n + t) 1 2 (10 : Nat) (20 : Nat) id id).2.1 rfl
  · exact (prediction_target_selection "sample" (5 : Nat)
      (fun (l : Nat) (n : Nat) (t : Nat) => l + n + t) 1 2 (10 : Nat) (20 : Nat) id id).2.2
      (by decide) (by decide)

/-- Claim C9 (confirmed): `FrozenModel.create` always raises `NameError` (the name
`call` is bound in none of the enclosing Python scopes) and never uses its
`apply_fn` argument, while `create_frozen_states` constructs `FrozenModel`
values via the constructor directly. -/
theorem frozen_model_create_name_error {φ π : Type} (apply_fn : φ) (params : π) :
    FrozenModel.create apply_fn params
      = Except.error "NameError: name call is not defined" ∧
    (∀ (apply_fn2 : φ), FrozenModel.create apply_fn params
      = FrozenModel.create apply_fn2 params) ∧
    (∀ (models : LoadedModels φ π),
      (create_frozen_states models).1
          = { call := models.vae_model, params := models.vae_params } ∧
      (create_frozen_states models).2
          = { call := models.noise_scheduler_object,
              params := models.noise_scheduler_state }) :=
  ⟨rfl, fun _ => rfl, fun _ => ⟨rfl, rfl⟩⟩

/-- Claim C10 (confirmed): `on_device_model_training_state` builds optimizer
states from the hardcoded scale factor 7 and the default learning rates `1e-6`
for both subsystems, ignoring every learning-rate and scale-factor field of the
given `TrainingConfig` (the result is a constant function of the config). -/
theorem on_device_training_state_ignores_config (cfg1 cfg2 : TrainingConfig) :
    on_device_model_training_state cfg1 = on_device_model_training_state cfg2 ∧
    (on_device_model_training_state cfg1).unet_state
      = some { learning_rate := (1/1000000 : Rat) / 7
               b1 := 9/10
               b2 := 99/100
               weight_decay := 7/100
               clip_global_norm := 1 } ∧
    (on_device_model_training_state cfg1).text_encoder_state
      = some { learning_rate := (1/1000000 : Rat) / 7
               b1 := 9/10
               b2 := 99/100
               weight_decay := 7/100
               clip_global_norm := 1 } := by
  refine ⟨rfl, ?_, ?_⟩ <;>
    simp [on_device_model_training_state, create_lion_optimizer_states,
      default_u_net_learning_rate, default_text_encoder_learning_rate] <;>
    norm_num

lemma keys_cacheInsert {κ ν : Type} [DecidableEq κ] (m : List (κ × ν)) (k : κ) (v : ν) :
    (cacheInsert m k v).map Prod.fst =
      if k ∈ m.map Prod.fst then m.map Prod.fst else m.map Prod.fst ++ [k] := by
  induction m with
  | nil => simp [cacheInsert]
  | cons e es ih =>
    by_cases h : e.1 = k
    · rw [cacheInsert, if_pos h]
      have hmem : k ∈ (e :: es).map Prod.fst := by simp [← h]
      rw [if_pos hmem]
      simp [h]
    · rw [cacheInsert, if_neg h]
      by_cases h2 : k ∈ es.map Prod.fst
      · have hmem : k ∈ (e :: es).map Prod.fst := by simp [h2]
        rw [if_pos hmem]
        simp only [List.map_cons, ih, if_pos h2]
      · have hmem : k ∉ (e :: es).map Prod.fst := by
          simp only [List.map_cons, List.mem_cons]
          rintro (h3 | h3)
          · exact h (h3.symm)
          · exact h2 h3
        rw [if_neg hmem]
        simp only [List.map_cons, ih, if_neg h2, List.cons_append]

lemma keys_foldl_insert {κ ν : Type} [DecidableEq κ] :
    ∀ (es : List (κ × ν)) (acc : List (κ × ν)) (k : κ),
      (k ∈ ((es.foldl (fun m e => cacheInsert m e.1 e.2) acc).map Prod.fst) ↔
        k ∈ acc.map Prod.fst ∨ k ∈ es.map Prod.fst) := by
  intro es
  induction es with
  | nil => intro acc k; simp
  | cons e es ih =>
    intro acc k
    rw [List.foldl_cons, ih]
    rw [keys_cacheInsert]
    by_cases h : e.1 ∈ acc.map Prod.fst
    · rw [if_pos h]
      simp only [List.map_cons, List.mem_cons]
      constructor
      · rintro (h2 | h2)
        · exact Or.inl h2
        · exact Or.inr (Or.inr h2)
      · rintro (h2 | h2 | h2)
        · exact Or.inl h2
        · rw [h2]; exact Or.inl h
        · exact Or.inr h2
    · rw [if_neg h]
      simp only [List.mem_append, List.mem_singleton, List.map_cons, List.mem_cons]
      tauto

lemma nodup_keys_foldl_insert {κ ν : Type} [DecidableEq κ] :
    ∀ (es : List (κ × ν)) (acc : List (κ × ν)),
      (acc.map Prod.fst).Nodup →
      ((es.foldl (fun m e => cacheInsert m e.1 e.2) acc).map Prod.fst).Nodup := by
  intro es
  induction es with
  | nil => intro acc h; simpa using h
  | cons e es ih =>
    intro acc h
    rw [List.foldl_cons]
    apply ih
    rw [keys_cacheInsert]
    by_cases h2 : e.1 ∈ acc.map Prod.fst
    · rw [if_pos h2]; exact h
    · rw [if_neg h2]
      rw [List.nodup_append]
      exact ⟨h, List.nodup_singleton _, by simpa using h2⟩

lemma length_buildCache {κ ν : Type} [DecidableEq κ] (es : List (κ × ν)) :
    (buildCache es).length = ((es.map Prod.fst).toFinset).card := by
  have hnodup : ((buildCache es).map Prod.fst).Nodup :=
    nodup_keys_foldl_insert es [] (by simp)
  have hmem : ∀ k, k ∈ (buildCache es).map Prod.fst ↔ k ∈ es.map Prod.fst := by
    intro k
    have h := keys_foldl_insert es [] k
    simpa [buildCache] using h
  calc (buildCache es).length = ((buildCache es).map Prod.fst).length :=
        (List.length_map ..).symm
    _ = ((buildCache es).map Prod.fst).toFinset.card :=
        (List.toFinset_card_of_nodup hnodup).symm
    _ = (es.map Prod.fst).toFinset.card := by
        congr 1
        ext k
        simp only [List.mem_toFinset]
        exact hmem k

lemma toFinset_card_lt_of_not_nodup {κ : Type} [DecidableEq κ] {l : List κ}
    (h : ¬ l.Nodup) : l.toFinset.card < l.length := by
  rw [List.card_toFinset]
  have hsub := List.dedup_sublist l
  have hle : l.dedup.length ≤ l.length := hsub.length_le
  rcases Nat.lt_or_ge l.dedup.length l.length with hlt | hge
  · exact hlt
  · exfalso
    have heq : l.dedup = l := hsub.eq_of_length (by omega)
    have := List.nodup_dedup l
    rw [heq] at this
    exact h this

lemma cacheLookup_cacheInsert {κ ν : Type} [DecidableEq κ]
    (m : List (κ × ν)) (k : κ) (v : ν) (q : κ) :
    cacheLookup (cacheInsert m k v) q = if q = k then some v else cacheLookup m q := by
  induction m with
  | nil =>
    by_cases hq : q = k
    · subst hq
      simp [cacheInsert, cacheLookup, List.find?]
    · rw [if_neg hq]
      have hd : (decide (k = q)) = false := by
        simp only [decide_eq_false_iff_not]
        exact fun h => hq h.symm
      simp [cacheInsert, cacheLookup, List.find?, hd]
  | cons e es ih =>
    by_cases h1 : e.1 = k
    · rw [cacheInsert, if_pos h1]
      by_cases hq : q = k
      · subst hq
        simp [cacheLookup, List.find?]
      · rw [if_neg hq]
        have hd : (decide (k = q)) = false := by
          simp only [decide_eq_false_iff_not]
          exact fun h => hq h.symm
        have hd2 : (decide (e.1 = q)) = false := by
          simp only [decide_eq_false_iff_not]
          intro h2
          exact hq ((h2.symm.trans h1).symm).symm
        simp [cacheLookup, List.find?, hd, hd2]
    · rw [cacheInsert, if_neg h1]
      by_cases h3 : e.1 = q
      · have hq : ¬ (q = k) := fun h => h1 (h3.trans h)
        rw [if_neg hq]
        simp [cacheLookup, List.find?, h3]
      · have hd : (decide (e.1 = q)) = false := by
          simp only [decide_eq_false_iff_not]; exact h3
        rw [cacheLookup, List.find?_cons_of_neg _ (by simp [hd]),
          cacheLookup, List.find?_cons_of_neg _ (by simp [hd])] at *
        rw [← cacheLookup, ← cacheLookup]
        exact ih

lemma find?_append_match {α : Type} (p : α → Bool) (l1 l2 : List α) :
    (l1 ++ l2).find? p = match l1.find? p with
      | some a => some a
      | none => l2.find? p := by
  induction l1 with
  | nil => simp
  | cons a t ih =>
    by_cases h : p a = true
    · rw [List.cons_append, List.find?_cons_of_pos _ h, List.find?_cons_of_pos _ h]
    · rw [List.cons_append, List.find?_cons_of_neg _ h, List.find?_cons_of_neg _ h, ih]

lemma cacheLookup_foldl_insert {κ ν : Type} [DecidableEq κ] :
    ∀ (es : List (κ × ν)) (acc : List (κ × ν)) (q : κ),
      cacheLookup (es.foldl (fun m e => cacheInsert m e.1 e.2) acc) q
        = match es.reverse.find? (fun e => decide (e.1 = q)) with
          | some e => some e.2
          | none => cacheLookup acc q := by
  intro es
  induction es with
  | nil => intro acc q; simp
  | cons e es ih =>
    intro acc q
    rw [List.foldl_cons, ih]
    rw [List.reverse_cons, find?_append_match]
    rcases hfind : es.reverse.find? (fun e => decide (e.1 = q)) with - | x
    · simp only [hfind]
      rw [cacheLookup_cacheInsert]
      by_cases hq : e.1 = q
      · rw [List.find?_cons_of_pos _ (by simp [hq]), if_pos hq.symm]
      · rw [List.find?_cons_of_neg _ (by simp [hq]), if_neg (fun h => hq h.symm)]
        simp
    · simp only [hfind]

lemma cacheLookup_buildCache {κ ν : Type} [DecidableEq κ] (es : List (κ × ν)) (q : κ) :
    cacheLookup (buildCache es) q
      = (es.reverse.find? (fun e => decide (e.1 = q))).map Prod.snd := by
  rw [buildCache, cacheLookup_foldl_insert]
  rcases hfind : es.reverse.find? (fun e => decide (e.1 = q)) with - | x
  · simp only [hfind, Option.map_none']
    simp [cacheLookup]
  · simp only [hfind, Option.map_some']

lemma compile_entries_keys (cfg : TrainingConfig) :
    (compile_entries cfg).map Prod.fst
      = (planned_buckets cfg).map (train_step_shape_key cfg.batch_size) := by
  unfold compile_entries
  rw [List.map_map]
  rw [show (Prod.fst ∘ fun e : Nat × (Nat × Nat) =>
      (train_step_shape_key cfg.batch_size e.2, e.1))
    = (train_step_shape_key cfg.batch_size) ∘ Prod.snd from rfl]
  rw [← List.map_map, List.enum_map_snd]

lemma shape_key_injective (batch_size : Nat) :
    Function.Injective (train_step_shape_key batch_size) := by
  intro a b h
  simp only [train_step_shape_key, Prod.mk.injEq] at h
  exact Prod.ext h.2.2.1 h.2.2.2

/-- Claim C6 (confirmed): over the `N` planned buckets, the compilation cache has
exactly `N` entries when all shape keys are pairwise distinct (equivalently, when
the `(width, height)` pairs are distinct, the key being injective in the pair),
fewer than `N` entries when duplicates occur, and lookup returns the compiled
executable of the last bucket with that key (last-writer-wins, modelling the
sequential dictionary insertion order of the bucket loop). -/
theorem compile_cache_properties (cfg : TrainingConfig) :
    ((planned_buckets cfg).Nodup ↔
      ((planned_buckets cfg).map (train_step_shape_key cfg.batch_size)).Nodup) ∧
    ((planned_buckets cfg).Nodup →
      (dp_compile_all_unique_resolution cfg).length = (planned_buckets cfg).length) ∧
    (¬ (planned_buckets cfg).Nodup →
      (dp_compile_all_unique_resolution cfg).length < (planned_buckets cfg).length) ∧
    (∀ k, cacheLookup (dp_compile_all_unique_resolution cfg) k
      = ((compile_entries cfg).reverse.find? (fun e => decide (e.1 = k))).map Prod.snd) := by
  have hkeys := compile_entries_keys cfg
  have hklen : ((compile_entries cfg).map Prod.fst).length = (planned_buckets cfg).length := by
    rw [hkeys, List.length_map]
  have hiff : (planned_buckets cfg).Nodup ↔
      ((planned_buckets cfg).map (train_step_shape_key cfg.batch_size)).Nodup :=
    ⟨fun h => h.map (shape_key_injective cfg.batch_size), fun h => h.of_map _⟩
  have hbuild : (dp_compile_all_unique_resolution cfg).length
      = ((compile_entries cfg).map Prod.fst).toFinset.card := length_buildCache _
  refine ⟨hiff, ?_, ?_, ?_⟩
  · intro hnd
    rw [hbuild, List.toFinset_card_of_nodup (by rw [hkeys]; exact hiff.mp hnd), hklen]
  · intro hnd
    have hnd2 : ¬ ((compile_entries cfg).map Prod.fst).Nodup := by
      rw [hkeys]
      exact fun h => hnd (hiff.mpr h)
    rw [hbuild]
    calc ((compile_entries cfg).map Prod.fst).toFinset.card
        < ((compile_entries cfg).map Prod.fst).length :=
          toFinset_card_lt_of_not_nodup hnd2
      _ = (planned_buckets cfg).length := hklen
  · intro k
    exact cacheLookup_buildCache _ k

lemma sqrt_4096 : Nat.sqrt 4096 = 64 := by
  symm; rw [Nat.eq_sqrt]; omega

lemma calc_res_4096 : calculate_resolution_array 4096 64 64 = [(64, 64)] := by
  simp only [calculate_resolution_array, sqrt_4096]
  decide

lemma planned_buckets_base : planned_buckets cfg_base = [(64, 64)] := by
  have h : planned_buckets cfg_base = calculate_resolution_array (64 ^ 2) 64 64 ++ [] := rfl
  rw [h, List.append_nil, show (64 : Nat) ^ 2 = 4096 by norm_num, calc_res_4096]

lemma planned_buckets_dup : planned_buckets cfg_dup = [(64, 64), (64, 64)] := by
  have h : planned_buckets cfg_dup
      = calculate_resolution_array (64 ^ 2) 64 64
        ++ (calculate_resolution_array (64 ^ 2) 64 64 ++ []) := rfl
  rw [h, List.append_nil, show (64 : Nat) ^ 2 = 4096 by norm_num, calc_res_4096]
  rfl

lemma compile_entries_base :
    compile_entries cfg_base = [((8, 3, 64, 64), 0)] := by
  rw [compile_entries, planned_buckets_base]
  rfl

lemma compile_entries_dup :
    compile_entries cfg_dup = [((8, 3, 64, 64), 0), ((8, 3, 64, 64), 1)] := by
  rw [compile_entries, planned_buckets_dup]
  rfl

/-- Claim C6 witness: a one-constraint config compiles `1` distinct bucket into a
cache of size `1`; a config with a duplicated constraint plans `2` equal buckets
yet yields fewer than `2` entries, and lookup returns the later executable
(index `1`). -/
theorem compile_cache_properties_witness :
    (dp_compile_all_unique_resolution cfg_base).length = 1 ∧
    ((dp_compile_all_unique_resolution cfg_dup).length < 2 ∧
      cacheLookup (dp_compile_all_unique_resolution cfg_dup) (8, 3, 64, 64) = some 1) := by
  refine ⟨?_, ?_, ?_⟩
  · have h := (compile_cache_properties cfg_base).2.1
      (by rw [planned_buckets_base]; decide)
    rw [planned_buckets_base] at h
    simpa using h
  · have h := (compile_cache_properties cfg_dup).2.2.1
      (by rw [planned_buckets_dup]; decide)
    rw [planned_buckets_dup] at h
    simpa using h
  · have h := (compile_cache_properties cfg_dup).2.2.2 (8, 3, 64, 64)
    rw [h, compile_entries_dup]
    rfl

/-- C7 amended theorem: the cache build depends only on batch size and the
zip of the two constraint lists; no error is raised on mismatched lengths,
and the zip truncates to the shorter list. -/
theorem constraint_zip_truncates (cfg1 cfg2 : TrainingConfig)
    (hb : cfg1.batch_size = cfg2.batch_size)
    (hz : cfg1.image_area_root.zip cfg1.minimum_axis_length
        = cfg2.image_area_root.zip cfg2.minimum_axis_length) :
    dp_compile_all_unique_resolution cfg1 = dp_compile_all_unique_resolution cfg2 ∧
    (resolution_constraints cfg1).length
      = min cfg1.image_area_root.length cfg1.minimum_axis_length.length := by
  constructor
  · unfold dp_compile_all_unique_resolution compile_entries planned_buckets
      resolution_constraints
    rw [hz, hb]
  · exact List.length_zip ..

/-- C7 counterexample: a config with mismatched list lengths (2 vs 1) raises
no error; the pairing is silently truncated and cache building proceeds
exactly as for the truncated config. -/
theorem constraint_mismatch_no_error :
    cfg_mis.image_area_root.length = 2 ∧
    cfg_mis.minimum_axis_length.length = 1 ∧
    resolution_constraints cfg_mis = [(64, 64)] ∧
    dp_compile_all_unique_resolution cfg_mis = dp_compile_all_unique_resolution cfg_base ∧
    (dp_compile_all_unique_resolution cfg_mis).length = 1 := by
  refine ⟨rfl, rfl, rfl, rfl, ?_⟩
  have h : dp_compile_all_unique_resolution cfg_mis
      = dp_compile_all_unique_resolution cfg_base := rfl
  rw [h, dp_compile_all_unique_resolution, compile_entries_base]
  rfl

/-- C7 witness for the amended theorem. -/
theorem constraint_zip_truncates_witness :
    dp_compile_all_unique_resolution cfg_mis = dp_compile_all_unique_resolution cfg_base ∧
    (resolution_constraints cfg_mis).length = min 2 1 := by
  have h := constraint_zip_truncates cfg_mis cfg_base rfl rfl
  exact ⟨h.1, by simpa using h.2⟩

end TrainingUtils
